import Mathlib

/-!
Shallow embedding of the capital-account allocation engine of the
partnership-tax repository.  `Decimal` values are modelled as exact
rationals (`ℚ`); the `quantize(Decimal('0.01'), ROUND_HALF_UP)` calls of
the source become `quantizeCent`, and the bare `quantize(Decimal('0.01'))`
calls (Python's default `ROUND_HALF_EVEN`) become `quantizeCentHE`.
Python dicts keyed by partner id are modelled as total functions
`String → ℚ` that are zero off the key set, together with the ordered key
list, so that `sum(d.values())` becomes `dictSum` over the deduplicated
keys.
-/

namespace PartnershipTax

/-- Python `ROUND_HALF_UP`: round to nearest integer, ties away from zero. -/
def roundHalfUp (x : ℚ) : ℤ :=
  if 0 ≤ x then ⌊x + 1/2⌋ else -⌊-x + 1/2⌋

/-- `Decimal.quantize(Decimal('0.01'), rounding=ROUND_HALF_UP)`. -/
def quantizeCent (x : ℚ) : ℚ :=
  (roundHalfUp (x * 100) : ℚ) / 100

/-- Python `ROUND_HALF_EVEN` (the context default used by a bare
`quantize(Decimal('0.01'))`): round to nearest, ties to the even integer. -/
def roundHalfEven (x : ℚ) : ℤ :=
  let f := ⌊x⌋
  let r := x - f
  if r < 1/2 then f
  else if 1/2 < r then f + 1
  else if f % 2 = 0 then f else f + 1

/-- `Decimal.quantize(Decimal('0.01'))` with the default context rounding. -/
def quantizeCentHE (x : ℚ) : ℚ :=
  (roundHalfEven (x * 100) : ℚ) / 100

/-- A partner record, with the fields the engine reads from the partner
dicts (`partner_id`, `capital_contributed`, `ownership_percentage`,
`receives_preferred_return`, `receives_promote`, `partner_type`,
`current_capital_balance`). -/
structure Partner where
  partner_id : String
  capital_contributed : ℚ := 0
  ownership_percentage : ℚ := 0
  receives_preferred_return : Bool := false
  receives_promote : Bool := false
  partner_type : String := ""
  current_capital_balance : ℚ := 0
deriving Repr, DecidableEq

/-- The `"type"` field of a waterfall step dict. -/
inductive StepType where
  | return_of_capital
  | preferred_return
  | catch_up
  | promote
  | pro_rata
  | other
deriving Repr, DecidableEq

/-- A waterfall step dict: a `type` plus the numeric parameters the two
implementations read (`rate`, `percentage`, `amount`). -/
structure WaterfallStep where
  type : StepType
  rate : ℚ := 0
  percentage : ℚ := 0
  amount : ℚ := 0
deriving Repr, DecidableEq

/-- `d[k] += v` on a dict modelled as a total function. -/
def update (f : String → ℚ) (k : String) (v : ℚ) : String → ℚ :=
  fun x => if x = k then f x + v else f x

/-- The ordered key list of the proceeds dict
(`{p["partner_id"]: Decimal('0') for p in partners}`). -/
def partnerIds (partners : List Partner) : List String :=
  partners.map (·.partner_id)

/-- `sum(d.values())` for a dict with key list `keys` (duplicates collapse,
as they do in a Python dict comprehension). -/
def dictSum (keys : List String) (f : String → ℚ) : ℚ :=
  (keys.dedup.map f).sum

/-! ### `calculate_liquidation_proceeds` (tax_calculations.py, lines 80–150) -/

/-- The `return_of_capital` branch of `calculate_liquidation_proceeds`:
iterate partners in order, `break` when `remaining_proceeds <= 0` is seen at
the top of an iteration, and distribute `min(unreturned_capital, remaining)`
whenever `unreturned_capital > 0`, where `unreturned_capital =
capital_contributed - partner_proceeds[partner_id]`. -/
def rocStepCalc : List Partner → (String → ℚ) → ℚ → (String → ℚ) × ℚ
  | [], f, rem => (f, rem)
  | p :: ps, f, rem =>
    if rem ≤ 0 then (f, rem)
    else
      let unreturned := p.capital_contributed - f p.partner_id
      if 0 < unreturned then
        let d := min unreturned rem
        rocStepCalc ps (update f p.partner_id d) (rem - d)
      else
        rocStepCalc ps f rem

/-- The `preferred_return` branch of `calculate_liquidation_proceeds`:
same top-of-loop break; only partners with `receives_preferred_return`
get `min(capital_contributed * rate, remaining)`. -/
def prefStepCalc (rate : ℚ) : List Partner → (String → ℚ) → ℚ → (String → ℚ) × ℚ
  | [], f, rem => (f, rem)
  | p :: ps, f, rem =>
    if rem ≤ 0 then (f, rem)
    else if p.receives_preferred_return then
      let d := min (p.capital_contributed * rate) rem
      prefStepCalc rate ps (update f p.partner_id d) (rem - d)
    else
      prefStepCalc rate ps f rem

/-- The crediting loop of the `pro_rata` branch: every partner is credited
`remaining * (ownership_percentage / total_ownership)`; `remaining` is not
read back inside the loop. -/
def proRataCredit (rem tot : ℚ) : List Partner → (String → ℚ) → String → ℚ
  | [], f => f
  | p :: ps, f =>
      proRataCredit rem tot ps (update f p.partner_id (rem * (p.ownership_percentage / tot)))

/-- One waterfall step of `calculate_liquidation_proceeds`.  After a
`pro_rata` step with `total_ownership > 0` the remaining pool is set to
zero (`remaining_proceeds = Decimal('0')  # All distributed`); steps whose
type is not one of the three handled kinds are ignored. -/
def stepCalc (partners : List Partner) (st : (String → ℚ) × ℚ) (s : WaterfallStep) :
    (String → ℚ) × ℚ :=
  match s.type with
  | .return_of_capital => rocStepCalc partners st.1 st.2
  | .preferred_return => prefStepCalc s.rate partners st.1 st.2
  | .pro_rata =>
      let tot := (partners.map (·.ownership_percentage)).sum
      if 0 < tot then (proRataCredit st.2 tot partners st.1, 0) else st
  | _ => st

/-- The step loop of `calculate_liquidation_proceeds`: the
`if remaining_proceeds <= 0: break` guard runs at the top of each step
iteration, before the step is processed. -/
def runCalc (partners : List Partner) : List WaterfallStep → (String → ℚ) × ℚ → (String → ℚ) × ℚ
  | [], st => st
  | s :: ss, st =>
      if st.2 ≤ 0 then st else runCalc partners ss (stepCalc partners st s)

/-- The full state (per-partner unrounded proceeds, remaining pool) at the
end of the step loop of `calculate_liquidation_proceeds`. -/
def calcLiquidationState (total_proceeds : ℚ) (waterfall_steps : List WaterfallStep)
    (partners : List Partner) : (String → ℚ) × ℚ :=
  runCalc partners waterfall_steps (fun _ => 0, total_proceeds)

/-- `calculate_liquidation_proceeds`: run the waterfall, then round every
partner's total to penny precision with `ROUND_HALF_UP`.  The Python
function returns only the per-partner dict. -/
def calculate_liquidation_proceeds (total_proceeds : ℚ) (waterfall_steps : List WaterfallStep)
    (partners : List Partner) : String → ℚ :=
  fun k => quantizeCent ((calcLiquidationState total_proceeds waterfall_steps partners).1 k)

/-! ### `_model_liquidation_distribution` (capital_account_manager.py, lines 272–368) -/

/-- The `return_of_capital` branch of `_model_liquidation_distribution`:
every partner gets `min(capital_contributed, remaining)` — no subtraction of
amounts already distributed — and the `if remaining_proceeds <= 0: break`
check runs after the distribution. -/
def rocStepModel : List Partner → (String → ℚ) → ℚ → (String → ℚ) × ℚ
  | [], f, rem => (f, rem)
  | p :: ps, f, rem =>
      let d := min p.capital_contributed rem
      let f' := update f p.partner_id d
      let rem' := rem - d
      if rem' ≤ 0 then (f', rem') else rocStepModel ps f' rem'

/-- The `preferred_return` branch of `_model_liquidation_distribution`:
only partners with `partner_type == "limited"` participate; no break. -/
def prefStepModel (rate : ℚ) : List Partner → (String → ℚ) → ℚ → (String → ℚ) × ℚ
  | [], f, rem => (f, rem)
  | p :: ps, f, rem =>
      if p.partner_type = "limited" then
        let d := min (p.capital_contributed * rate) rem
        prefStepModel rate ps (update f p.partner_id d) (rem - d)
      else
        prefStepModel rate ps f rem

/-- The `catch_up` branch: partners with `partner_type == "general"` get
`remaining * (percentage / 100)` sequentially, decrementing `remaining`
after each (so a second general partner sees the reduced pool). -/
def catchUpStepModel (pct : ℚ) : List Partner → (String → ℚ) → ℚ → (String → ℚ) × ℚ
  | [], f, rem => (f, rem)
  | p :: ps, f, rem =>
      if p.partner_type = "general" then
        let d := rem * pct
        catchUpStepModel pct ps (update f p.partner_id d) (rem - d)
      else
        catchUpStepModel pct ps f rem

/-- The `promote` branch: partners with `receives_promote` get
`remaining * (percentage / 100)` sequentially. -/
def promoteStepModel (pct : ℚ) : List Partner → (String → ℚ) → ℚ → (String → ℚ) × ℚ
  | [], f, rem => (f, rem)
  | p :: ps, f, rem =>
      if p.receives_promote then
        let d := rem * pct
        promoteStepModel pct ps (update f p.partner_id d) (rem - d)
      else
        promoteStepModel pct ps f rem

/-- The `pro_rata` crediting loop of `_model_liquidation_distribution`:
each partner gets `remaining * share`, with `share = ownership / total` when
`total_interests > 0` and `0` otherwise; `remaining` is never decremented
or zeroed in this branch. -/
def proRataCreditModel (rem tot : ℚ) : List Partner → (String → ℚ) → String → ℚ
  | [], f => f
  | p :: ps, f =>
      let share := if 0 < tot then p.ownership_percentage / tot else 0
      proRataCreditModel rem tot ps (update f p.partner_id (rem * share))

/-- One waterfall step of `_model_liquidation_distribution`. -/
def stepModel (partners : List Partner) (st : (String → ℚ) × ℚ) (s : WaterfallStep) :
    (String → ℚ) × ℚ :=
  match s.type with
  | .return_of_capital => rocStepModel partners st.1 st.2
  | .preferred_return => prefStepModel s.rate partners st.1 st.2
  | .catch_up => catchUpStepModel (s.percentage / 100) partners st.1 st.2
  | .promote => promoteStepModel (s.percentage / 100) partners st.1 st.2
  | .pro_rata =>
      let tot := (partners.map (·.ownership_percentage)).sum
      (proRataCreditModel st.2 tot partners st.1, st.2)
  | _ => st

/-- The step loop of `_model_liquidation_distribution`: the
`if remaining_proceeds <= 0: break` check runs at the bottom of each step
iteration, after the step has been processed. -/
def runModel (partners : List Partner) : List WaterfallStep → (String → ℚ) × ℚ → (String → ℚ) × ℚ
  | [], st => st
  | s :: ss, st =>
      let st' := stepModel partners st s
      if st'.2 ≤ 0 then st' else runModel partners ss st'

/-- `_model_liquidation_distribution`, parametrised directly by the
proceeds pool (`total_fair_market_value`): returns the per-partner
distribution dict and `remaining_proceeds`, with no rounding. -/
def model_liquidation_distribution (total_proceeds : ℚ) (waterfall_steps : List WaterfallStep)
    (partners : List Partner) : (String → ℚ) × ℚ :=
  runModel partners waterfall_steps (fun _ => 0, total_proceeds)

/-! ### `calculate_target_allocations` (tax_calculations.py, lines 152–192)
and `_calculate_required_allocations` (capital_account_manager.py, lines
394–429).  The two differ only in where the current balance comes from
(an explicit dict vs `partner["current_capital_balance"]`); both use a
tolerance of `Decimal('0.01')` and rescale by `net_income / total` whenever
the discrepancy exceeds it and `total != 0`. -/

/-- The raw required allocation for one partner:
`(target - current).quantize(Decimal('0.01'), ROUND_HALF_UP)`. -/
def rawAlloc (liquidation_proceeds current_balances : String → ℚ) (pid : String) : ℚ :=
  quantizeCent (liquidation_proceeds pid - current_balances pid)

/-- The raw allocation dict built by the first loop of
`calculate_target_allocations`, as a function that is zero off the key
set. -/
def rawAllocDict (partners : List Partner) (liquidation_proceeds current_balances : String → ℚ) :
    String → ℚ :=
  fun k => if k ∈ partnerIds partners then rawAlloc liquidation_proceeds current_balances k else 0

/-- `calculate_target_allocations`: build the raw dict, sum its values; if
`abs(total - net_income) > 0.01`, rescale every entry by
`net_income / total` and re-round — but only when `total != 0`; otherwise
(and when the discrepancy is within tolerance) return the raw dict.  No
error is raised in any case. -/
def calculate_target_allocations (partners : List Partner) (net_income : ℚ)
    (liquidation_proceeds current_balances : String → ℚ) : String → ℚ :=
  let raw := rawAllocDict partners liquidation_proceeds current_balances
  let total := dictSum (partnerIds partners) raw
  if 1/100 < |total - net_income| then
    if total ≠ 0 then
      fun k => if k ∈ partnerIds partners then quantizeCent (raw k * (net_income / total)) else 0
    else raw
  else raw

/-! ### The two compliance validators -/

/-- Partnership-agreement flags read by both validators. -/
structure Agreement where
  has_deficit_restoration_obligation : Bool := false
  has_qualified_income_offset : Bool := false
deriving Repr, DecidableEq

/-- The four booleans of a compliance result.  `validate_substantial_economic_effect`
names the third key `"deficit_restoration"`, `_validate_allocations_compliance`
names it `"deficit_restoration_obligation"`; both are this field. -/
structure ComplianceFlags where
  capital_account_maintenance : Bool
  liquidation_consistency : Bool
  deficit_restoration : Bool
  substantial_economic_effect : Bool
deriving Repr, DecidableEq

/-- The deficit-scan loop of `validate_substantial_economic_effect`: the
first partner with `balance < 0 and not (has_dro or has_qio)` is logged and
the loop breaks. -/
def findUnprotected (dq : Bool) : List (String × ℚ) → Option String
  | [] => none
  | (pid, bal) :: rest =>
      if bal < 0 ∧ dq = false then some pid else findUnprotected dq rest

/-- `validate_substantial_economic_effect` (tax_calculations.py, lines
40–78).  The `allocations` argument is accepted but never read.  Returns
the four booleans together with the list of partner ids logged by
`logger.warning` (at most one, because of the `break`). -/
def validate_substantial_economic_effect (allocations : String → ℚ)
    (capital_accounts : List (String × ℚ)) (partnership_agreement : Agreement) :
    ComplianceFlags × List String :=
  let dq := partnership_agreement.has_deficit_restoration_obligation
            || partnership_agreement.has_qualified_income_offset
  match findUnprotected dq capital_accounts with
  | some pid =>
      (⟨true, true, dq, false⟩, [pid])
  | none =>
      (⟨true, true, dq, true⟩, [])

/-- `_validate_allocations_compliance` (capital_account_manager.py, lines
431–463).  The `allocations` argument is accepted but never read; the
deficit scan has no break, so every triggering partner is logged. -/
def validate_allocations_compliance (allocations : String → ℚ)
    (agreement_terms : Agreement) (target_balances : List (String × ℚ)) :
    ComplianceFlags × List String :=
  let has_dro := agreement_terms.has_deficit_restoration_obligation
  let has_qio := agreement_terms.has_qualified_income_offset
  let triggering := target_balances.filter
    (fun kv => decide (kv.2 < 0) && !has_dro && !has_qio)
  (⟨true, true, has_dro || has_qio, triggering.isEmpty⟩, triggering.map (·.1))

/-! ### `calculate_section_754_adjustment` (tax_calculations.py, lines 194–243) -/

/-- An asset dict, with the numeric fields the calculator reads. -/
structure Asset where
  asset_id : String
  fair_market_value : ℚ := 0
  tax_basis : ℚ := 0
deriving Repr, DecidableEq

/-- One entry of the `asset_adjustments` dict (the two monetary fields). -/
structure AssetAdj where
  basis_adjustment : ℚ
  new_basis : ℚ
deriving Repr, DecidableEq

/-- The result of `calculate_section_754_adjustment` (the monetary part). -/
structure Sec754Result where
  total_adjustment : ℚ
  asset_adjustments : List (String × AssetAdj)
deriving Repr, DecidableEq

/-- `calculate_section_754_adjustment`: `total_adjustment = purchase_price -
inside_basis`; early exit when it is zero; otherwise, when `total_fmv > 0`,
every asset gets `total_adjustment * (fmv / total_fmv) * transferred_interest`
rounded with the context default (half-even), and when `total_fmv <= 0` the
`asset_adjustments` dict stays empty (no division is performed). -/
def calculate_section_754_adjustment (partnership_assets : List Asset)
    (transferred_interest purchase_price inside_basis : ℚ) : Sec754Result :=
  let total_adjustment := purchase_price - inside_basis
  if total_adjustment = 0 then
    ⟨0, []⟩
  else
    let total_fmv := (partnership_assets.map (·.fair_market_value)).sum
    let adjs :=
      if 0 < total_fmv then
        partnership_assets.map (fun a =>
          let asset_adjustment := total_adjustment * (a.fair_market_value / total_fmv)
              * transferred_interest
          (a.asset_id,
            { basis_adjustment := quantizeCentHE asset_adjustment
              new_basis := quantizeCentHE (a.tax_basis + asset_adjustment) }))
      else []
    ⟨quantizeCentHE total_adjustment, adjs⟩

/-- The return-of-capital step with the cumulative-tracking semantics the
code actually implements, written out as the amended claim states it: each
partner in order receives `max 0 (min (capital_contributed − cumulative
amount already distributed to that partner across all step categories,
remaining))`, with the early stop once `remaining ≤ 0`.  Declared
separately so it can be compared with `rocStepCalc`. -/
def rocStepSpec : List Partner → (String → ℚ) → ℚ → (String → ℚ) × ℚ
  | [], f, rem => (f, rem)
  | p :: ps, f, rem =>
    if rem ≤ 0 then (f, rem)
    else
      let d := max 0 (min (p.capital_contributed - f p.partner_id) rem)
      rocStepSpec ps (update f p.partner_id d) (rem - d)

/-! ### Concrete sample inputs used by witnesses and counterexamples -/

def sampleA : Partner := { partner_id := "A", ownership_percentage := 1 }

def sampleB : Partner := { partner_id := "B", ownership_percentage := 1 }

def sampleC : Partner := { partner_id := "C", ownership_percentage := 1 }

def proRataStep : WaterfallStep := { type := .pro_rata }

def rocStep : WaterfallStep := { type := .return_of_capital }

def prefHalfStep : WaterfallStep := { type := .preferred_return, rate := 1/2 }

def prefCap100 : Partner :=
  { partner_id := "A", capital_contributed := 100, receives_preferred_return := true }

def prefCap120 : Partner :=
  { partner_id := "A", capital_contributed := 120, receives_preferred_return := true }

def cap50 : Partner := { partner_id := "A", capital_contributed := 50 }

def cap60 : Partner := { partner_id := "A", capital_contributed := 60 }

def cap600k : Partner := { partner_id := "A", capital_contributed := 600000 }

def cap400k : Partner := { partner_id := "B", capital_contributed := 400000 }

def lpOne : String → ℚ := fun _ => 1

def lpTwo : String → ℚ := fun _ => 2

def cbZero : String → ℚ := fun _ => 0

def sampleAsset : Asset := { asset_id := "A", fair_market_value := 100 }

/-! ### Basic lemmas about dict updates and sums -/

theorem update_self (f : String → ℚ) (k : String) (v : ℚ) : update f k v k = f k + v := by
  simp [update]

theorem update_ne (f : String → ℚ) (k x : String) (v : ℚ) (h : x ≠ k) :
    update f k v x = f x := by
  simp [update, h]

theorem sum_map_update_not_mem (l : List String) (f : String → ℚ) (k : String) (v : ℚ)
    (h : k ∉ l) : (l.map (update f k v)).sum = (l.map f).sum := by
  have : l.map (update f k v) = l.map f := by
    apply List.map_congr_left
    intro x hx
    exact update_ne f k x v (fun hxk => h (hxk ▸ hx))
  rw [this]

theorem sum_map_update_of_nodup (l : List String) (f : String → ℚ) (k : String) (v : ℚ)
    (hnd : l.Nodup) (hk : k ∈ l) :
    (l.map (update f k v)).sum = (l.map f).sum + v := by
  induction l with
  | nil => cases hk
  | cons x xs ih =>
    rcases List.mem_cons.mp hk with rfl | hk'
    · have hnot : k ∉ xs := (List.nodup_cons.mp hnd).1
      simp only [List.map_cons, List.sum_cons, update_self,
        sum_map_update_not_mem xs f k v hnot]
      ring
    · have hne : x ≠ k := fun h => (List.nodup_cons.mp hnd).1 (h ▸ hk')
      simp only [List.map_cons, List.sum_cons, update_ne f k x v hne,
        ih (List.nodup_cons.mp hnd).2 hk']
      ring

theorem dictSum_update (keys : List String) (f : String → ℚ) (k : String) (v : ℚ)
    (hk : k ∈ keys) : dictSum keys (update f k v) = dictSum keys f + v := by
  unfold dictSum
  exact sum_map_update_of_nodup keys.dedup f k v keys.nodup_dedup (List.mem_dedup.mpr hk)

theorem dictSum_zero (keys : List String) : dictSum keys (fun _ => 0) = 0 := by
  simp [dictSum]

theorem list_sum_map_mul_left {α : Type} (l : List α) (g : α → ℚ) (c : ℚ) :
    (l.map (fun a => c * g a)).sum = c * (l.map g).sum := by
  induction l with
  | nil => simp
  | cons x xs ih => simp [ih, mul_add]

theorem dictSum_mul_right (keys : List String) (f : String → ℚ) (c : ℚ) :
    dictSum keys (fun k => f k * c) = dictSum keys f * c := by
  unfold dictSum
  induction keys.dedup with
  | nil => simp
  | cons x xs ih => simp [ih, add_mul]

/-! ### Conservation of the unrounded waterfall state -/

theorem rocStepCalc_conserve (keys : List String) :
    ∀ (l : List Partner) (f : String → ℚ) (rem : ℚ),
      (∀ p ∈ l, p.partner_id ∈ keys) →
      dictSum keys (rocStepCalc l f rem).1 + (rocStepCalc l f rem).2 = dictSum keys f + rem := by
  intro l
  induction l with
  | nil => intro f rem _; rfl
  | cons p ps ih =>
    intro f rem hmem
    have hp : p.partner_id ∈ keys := hmem p (List.mem_cons_self p ps)
    have hps : ∀ q ∈ ps, q.partner_id ∈ keys := fun q hq => hmem q (List.mem_cons_of_mem p hq)
    unfold rocStepCalc
    by_cases h1 : rem ≤ 0
    · simp only [if_pos h1]
    · by_cases h2 : 0 < p.capital_contributed - f p.partner_id
      · simp only [if_neg h1, if_pos h2]
        rw [ih _ _ hps, dictSum_update _ _ _ _ hp]
        ring
      · simp only [if_neg h1, if_neg h2]
        exact ih _ _ hps

theorem prefStepCalc_conserve (keys : List String) (rate : ℚ) :
    ∀ (l : List Partner) (f : String → ℚ) (rem : ℚ),
      (∀ p ∈ l, p.partner_id ∈ keys) →
      dictSum keys (prefStepCalc rate l f rem).1 + (prefStepCalc rate l f rem).2
        = dictSum keys f + rem := by
  intro l
  induction l with
  | nil => intro f rem _; rfl
  | cons p ps ih =>
    intro f rem hmem
    have hp : p.partner_id ∈ keys := hmem p (List.mem_cons_self p ps)
    have hps : ∀ q ∈ ps, q.partner_id ∈ keys := fun q hq => hmem q (List.mem_cons_of_mem p hq)
    unfold prefStepCalc
    by_cases h1 : rem ≤ 0
    · simp only [if_pos h1]
    · by_cases h2 : p.receives_preferred_return
      · simp only [if_neg h1, if_pos h2]
        rw [ih _ _ hps, dictSum_update _ _ _ _ hp]
        ring
      · simp only [if_neg h1, if_neg h2]
        exact ih _ _ hps

theorem proRataCredit_dictSum (keys : List String) (rem tot : ℚ) :
    ∀ (l : List Partner) (f : String → ℚ),
      (∀ p ∈ l, p.partner_id ∈ keys) →
      dictSum keys (proRataCredit rem tot l f)
        = dictSum keys f + (l.map (fun p => rem * (p.ownership_percentage / tot))).sum := by
  intro l
  induction l with
  | nil => intro f _; simp [proRataCredit]
  | cons p ps ih =>
    intro f hmem
    have hp : p.partner_id ∈ keys := hmem p (List.mem_cons_self p ps)
    have hps : ∀ q ∈ ps, q.partner_id ∈ keys := fun q hq => hmem q (List.mem_cons_of_mem p hq)
    unfold proRataCredit
    rw [ih _ hps, dictSum_update _ _ _ _ hp]
    simp only [List.map_cons, List.sum_cons]
    ring

theorem proRata_share_sum (rem : ℚ) (l : List Partner) (tot : ℚ)
    (htot : tot = (l.map (·.ownership_percentage)).sum) (hpos : 0 < tot) :
    (l.map (fun p => rem * (p.ownership_percentage / tot))).sum = rem := by
  have hfun : (fun p : Partner => rem * (p.ownership_percentage / tot))
      = fun p : Partner => (rem / tot) * p.ownership_percentage := by
    funext p
    field_simp
  rw [hfun, list_sum_map_mul_left, ← htot, div_mul_cancel₀]
  exact ne_of_gt hpos

theorem stepCalc_conserve (partners : List Partner) (st : (String → ℚ) × ℚ)
    (s : WaterfallStep) :
    dictSum (partnerIds partners) (stepCalc partners st s).1 + (stepCalc partners st s).2
      = dictSum (partnerIds partners) st.1 + st.2 := by
  have hmem : ∀ p ∈ partners, p.partner_id ∈ partnerIds partners := by
    intro p hp
    exact List.mem_map.mpr ⟨p, hp, rfl⟩
  unfold stepCalc
  cases hty : s.type with
  | return_of_capital => exact rocStepCalc_conserve _ _ _ _ hmem
  | preferred_return => exact prefStepCalc_conserve _ _ _ _ _ hmem
  | pro_rata =>
    simp only
    split
    · rename_i hpos
      rw [proRataCredit_dictSum _ _ _ _ _ hmem,
        proRata_share_sum st.2 partners _ rfl hpos]
      ring
    · rfl
  | catch_up => rfl
  | promote => rfl
  | other => rfl

theorem runCalc_conserve (partners : List Partner) :
    ∀ (steps : List WaterfallStep) (st : (String → ℚ) × ℚ),
      dictSum (partnerIds partners) (runCalc partners steps st).1 + (runCalc partners steps st).2
        = dictSum (partnerIds partners) st.1 + st.2 := by
  intro steps
  induction steps with
  | nil => intro st; rfl
  | cons s ss ih =>
    intro st
    unfold runCalc
    split
    · rfl
    · rw [ih (stepCalc partners st s), stepCalc_conserve]

theorem dictSum_eq (keys : List String) (f : String → ℚ) (l : List String)
    (h : keys.dedup = l) : dictSum keys f = (l.map f).sum := by
  rw [dictSum, h]

/-- Characterization of `validate_substantial_economic_effect`: the four
booleans and the logged-partner list, as functions of the deficit scan. -/
theorem validate_SEE_eq (a : String → ℚ) (accounts : List (String × ℚ)) (ag : Agreement) :
    validate_substantial_economic_effect a accounts ag
      = (⟨true, true,
          ag.has_deficit_restoration_obligation || ag.has_qualified_income_offset,
          (findUnprotected (ag.has_deficit_restoration_obligation
            || ag.has_qualified_income_offset) accounts).isNone⟩,
        (findUnprotected (ag.has_deficit_restoration_obligation
          || ag.has_qualified_income_offset) accounts).toList) := by
  unfold validate_substantial_economic_effect
  cases h : findUnprotected (ag.has_deficit_restoration_obligation
    || ag.has_qualified_income_offset) accounts <;> simp [h]

/-- C1 (amended): conservation holds exactly on the *unrounded* waterfall
state of `calculate_liquidation_proceeds`: for every total, step list and
partner list (hence at every step boundary, since the step list is
arbitrary), the sum of the per-partner unrounded amounts plus the remaining
pool equals `total_proceeds`.  The final per-partner `ROUND_HALF_UP`
rounding is applied independently per partner with no residual-cent
reassignment, so the claim's "exactly, after rounding" fails (see the
counterexample). -/
theorem waterfall_conservation_unrounded (total : ℚ) (steps : List WaterfallStep)
    (partners : List Partner) :
    dictSum (partnerIds partners) (calcLiquidationState total steps partners).1
      + (calcLiquidationState total steps partners).2 = total := by
  unfold calcLiquidationState
  rw [runCalc_conserve partners steps (fun _ => 0, total)]
  simp [dictSum_zero]

/-- C1 counterexample: proceeds 1.00, a single `pro_rata` step, three
partners with equal ownership.  Each rounded share is 0.33, the remaining
pool is 0, and 0.99 + 0 ≠ 1.00: the rounded outputs violate exact
conservation, and no residual-cent assignment exists in the code. -/
theorem waterfall_conservation_rounded_fails :
    dictSum (partnerIds [sampleA, sampleB, sampleC])
        (calculate_liquidation_proceeds 1 [proRataStep] [sampleA, sampleB, sampleC])
      + (calcLiquidationState 1 [proRataStep] [sampleA, sampleB, sampleC]).2 = 99/100
    ∧ ((99 : ℚ)/100 ≠ 1) := by
  constructor
  · rw [dictSum_eq _ _ ["A", "B", "C"] (by decide)]
    simp only [List.map_cons, List.map_nil, List.sum_cons, List.sum_nil]
    norm_num [calculate_liquidation_proceeds, calcLiquidationState, runCalc, stepCalc,
      proRataCredit, update, sampleA, sampleB, sampleC, proRataStep, quantizeCent, roundHalfUp]
    simp only [String.reduceEq, if_false, if_true, reduceIte]
    norm_num
  · norm_num

/-- C5 (amended): zero or negative `total_proceeds` is valid for
`calculate_liquidation_proceeds` and yields an all-zero distribution (the
step loop breaks before the first step).  The companion
`_model_liquidation_distribution` violates this for negative proceeds — see
the counterexample. -/
theorem nonpositive_proceeds_all_zero (total : ℚ) (steps : List WaterfallStep)
    (partners : List Partner) (k : String) (h : total ≤ 0) :
    calculate_liquidation_proceeds total steps partners k = 0 := by
  have hstate : calcLiquidationState total steps partners = (fun _ => 0, total) := by
    unfold calcLiquidationState
    cases steps with
    | nil => rfl
    | cons s ss => unfold runCalc; rw [if_pos h]
  unfold calculate_liquidation_proceeds
  rw [hstate]
  show quantizeCent 0 = 0
  norm_num [quantizeCent, roundHalfUp]

theorem nonpositive_proceeds_all_zero_witness :
    (-5 : ℚ) ≤ 0 ∧ calculate_liquidation_proceeds (-5) [rocStep] [cap50] "A" = 0 :=
  ⟨by norm_num, nonpositive_proceeds_all_zero (-5) [rocStep] [cap50] "A" (by norm_num)⟩

/-- C5 counterexample: `_model_liquidation_distribution` checks
`remaining_proceeds <= 0` only *after* processing a step, so with
`total_proceeds = -100`, one `return_of_capital` step and one partner with
`capital_contributed = 50`, the partner is distributed
`min(50, -100) = -100`, not zero. -/
theorem model_negative_proceeds_nonzero :
    (model_liquidation_distribution (-100) [rocStep] [cap50]).1 "A" = -100
    ∧ ((-100 : ℚ) ≠ 0) := by
  constructor
  · simp [model_liquidation_distribution, runModel, stepModel, rocStepModel, update,
      cap50, rocStep]
    norm_num
  · norm_num

/-- C7 (amended): the two waterfall implementations are not equivalent.
The systematic divergence: on a `pro_rata` step with positive total
ownership, `calculate_liquidation_proceeds` sets the remaining pool to
zero while `_model_liquidation_distribution` leaves it unchanged. -/
theorem proRata_remaining_divergence (partners : List Partner) (f : String → ℚ) (rem : ℚ)
    (s : WaterfallStep) (hty : s.type = StepType.pro_rata)
    (hpos : 0 < (partners.map (·.ownership_percentage)).sum) :
    (stepCalc partners (f, rem) s).2 = 0 ∧ (stepModel partners (f, rem) s).2 = rem := by
  constructor
  · unfold stepCalc
    rw [hty]
    simp only [if_pos hpos]
  · unfold stepModel
    rw [hty]

theorem proRata_remaining_divergence_witness :
    (stepCalc [sampleA] (fun _ => 0, 100) proRataStep).2 = 0
    ∧ (stepModel [sampleA] (fun _ => 0, 100) proRataStep).2 = 100 :=
  proRata_remaining_divergence [sampleA] (fun _ => 0) 100 proRataStep rfl
    (by simp [sampleA])

/-- C7 counterexample: at proceeds 100 with a single `pro_rata` step and one
wholly-owning partner, `calculate_liquidation_proceeds` ends with remaining
0 while `_model_liquidation_distribution` ends with remaining 100; and at
proceeds −100 with a `return_of_capital` step the per-partner amounts
differ (0 versus −100). -/
theorem waterfall_implementations_differ :
    (calcLiquidationState 100 [proRataStep] [sampleA]).2 = 0
    ∧ (model_liquidation_distribution 100 [proRataStep] [sampleA]).2 = 100
    ∧ calculate_liquidation_proceeds (-100) [rocStep] [cap50] "A" = 0
    ∧ (model_liquidation_distribution (-100) [rocStep] [cap50]).1 "A" = -100
    ∧ ((0 : ℚ) ≠ 100) := by
  refine ⟨?_, ?_, ?_, ?_, by norm_num⟩
  · norm_num [calcLiquidationState, runCalc, stepCalc, proRataCredit, update,
      sampleA, proRataStep]
  · norm_num [model_liquidation_distribution, runModel, stepModel, proRataCreditModel,
      update, sampleA, proRataStep]
  · norm_num [calculate_liquidation_proceeds, calcLiquidationState, runCalc,
      quantizeCent, roundHalfUp]
  · simp [model_liquidation_distribution, runModel, stepModel, rocStepModel, update,
      cap50, rocStep]
    norm_num

/-- C10: both compliance validators ignore the `allocations` argument they
are given — two calls differing only in that argument return identical
results — and `capital_account_maintenance` and `liquidation_consistency`
are `true` for every input, never re-derived from the allocations. -/
theorem validators_ignore_allocations (a1 a2 : String → ℚ)
    (accounts tb : List (String × ℚ)) (ag : Agreement) :
    validate_substantial_economic_effect a1 accounts ag
        = validate_substantial_economic_effect a2 accounts ag
    ∧ validate_allocations_compliance a1 ag tb = validate_allocations_compliance a2 ag tb
    ∧ (validate_substantial_economic_effect a1 accounts ag).1.capital_account_maintenance = true
    ∧ (validate_substantial_economic_effect a1 accounts ag).1.liquidation_consistency = true
    ∧ (validate_allocations_compliance a1 ag tb).1.capital_account_maintenance = true
    ∧ (validate_allocations_compliance a1 ag tb).1.liquidation_consistency = true := by
  refine ⟨rfl, rfl, ?_, ?_, rfl, rfl⟩
  · rw [validate_SEE_eq]
  · rw [validate_SEE_eq]

/-- C2 (amended): the allocation solver never fails closed.  When the
discrepancy `|total − net_income|` exceeds one cent it silently applies the
proportional true-up whenever `total ≠ 0` (no true-up parameter exists, so
none can be "requested"), and when `total = 0` it returns the raw
allocations unchanged — the discrepancy is only logged, never surfaced. -/
theorem target_allocations_silent_trueup (partners : List Partner) (net : ℚ)
    (lp cb : String → ℚ) :
    (dictSum (partnerIds partners) (rawAllocDict partners lp cb) = 0 →
      calculate_target_allocations partners net lp cb = rawAllocDict partners lp cb)
    ∧ (1/100 < |dictSum (partnerIds partners) (rawAllocDict partners lp cb) - net| →
        dictSum (partnerIds partners) (rawAllocDict partners lp cb) ≠ 0 →
        ∀ k ∈ partnerIds partners,
          calculate_target_allocations partners net lp cb k
            = quantizeCent (rawAllocDict partners lp cb k
                * (net / dictSum (partnerIds partners) (rawAllocDict partners lp cb))))
    ∧ (¬ 1/100 < |dictSum (partnerIds partners) (rawAllocDict partners lp cb) - net| →
        calculate_target_allocations partners net lp cb
          = rawAllocDict partners lp cb) := by
  simp only [calculate_target_allocations]
  refine ⟨?_, ?_, ?_⟩
  · intro h
    by_cases hd : 1/100 < |dictSum (partnerIds partners) (rawAllocDict partners lp cb) - net|
    · rw [if_pos hd, if_neg (fun hn => hn h)]
    · rw [if_neg hd]
  · intro hd hne k hk
    rw [if_pos hd, if_pos hne]
    simp [hk]
  · intro hd
    rw [if_neg hd]

theorem target_allocations_silent_trueup_witness :
    calculate_target_allocations [sampleA] 1 lpTwo cbZero "A"
      = quantizeCent (rawAllocDict [sampleA] lpTwo cbZero "A"
          * (1 / dictSum (partnerIds [sampleA]) (rawAllocDict [sampleA] lpTwo cbZero))) := by
  have htot : dictSum (partnerIds [sampleA]) (rawAllocDict [sampleA] lpTwo cbZero) = 2 := by
    rw [dictSum_eq _ _ ["A"] (by decide)]
    norm_num [rawAllocDict, rawAlloc, partnerIds, sampleA, lpTwo, cbZero,
      quantizeCent, roundHalfUp]
  exact (target_allocations_silent_trueup [sampleA] 1 lpTwo cbZero).2.1
    (by rw [htot]; norm_num) (by rw [htot]; norm_num) "A" (by simp [partnerIds, sampleA])

/-- C2 counterexample: one partner, raw allocation 2.00 against net income
1.00 — the discrepancy is 1.00 > one cent and no true-up was (or could be)
requested, yet the solver returns the rescaled allocation 1.00 instead of
surfacing a reconciliation error: the true-up is applied unconditionally. -/
theorem reconciliation_never_fails_closed :
    1/100 < |dictSum (partnerIds [sampleA]) (rawAllocDict [sampleA] lpTwo cbZero) - 1|
    ∧ calculate_target_allocations [sampleA] 1 lpTwo cbZero "A" = 1
    ∧ rawAllocDict [sampleA] lpTwo cbZero "A" = 2 := by
  have htot : dictSum (partnerIds [sampleA]) (rawAllocDict [sampleA] lpTwo cbZero) = 2 := by
    rw [dictSum_eq _ _ ["A"] (by decide)]
    norm_num [rawAllocDict, rawAlloc, partnerIds, sampleA, lpTwo, cbZero,
      quantizeCent, roundHalfUp]
  refine ⟨by rw [htot]; norm_num, ?_, ?_⟩
  · simp only [calculate_target_allocations, htot]
    norm_num [rawAllocDict, rawAlloc, partnerIds, sampleA, lpTwo, cbZero,
      quantizeCent, roundHalfUp]
  · norm_num [rawAllocDict, rawAlloc, partnerIds, sampleA, lpTwo, cbZero,
      quantizeCent, roundHalfUp]

/-- C3 (amended): whenever the proportional true-up runs (`total ≠ 0`), the
*unrounded* rescaled allocations sum to exactly `net_income`; the final
per-partner re-rounding is what breaks exactness (see the
counterexample). -/
theorem trueup_exact_before_rounding (partners : List Partner) (net : ℚ)
    (lp cb : String → ℚ)
    (h : dictSum (partnerIds partners) (rawAllocDict partners lp cb) ≠ 0) :
    dictSum (partnerIds partners)
        (fun k => rawAllocDict partners lp cb k
          * (net / dictSum (partnerIds partners) (rawAllocDict partners lp cb)))
      = net := by
  rw [dictSum_mul_right]
  field_simp

theorem trueup_exact_before_rounding_witness :
    dictSum (partnerIds [sampleA])
        (fun k => rawAllocDict [sampleA] lpTwo cbZero k
          * (1 / dictSum (partnerIds [sampleA]) (rawAllocDict [sampleA] lpTwo cbZero)))
      = 1 := by
  refine trueup_exact_before_rounding [sampleA] 1 lpTwo cbZero ?_
  rw [dictSum_eq _ _ ["A"] (by decide)]
  norm_num [rawAllocDict, rawAlloc, partnerIds, sampleA, lpTwo, cbZero,
    quantizeCent, roundHalfUp]

/-- C3 counterexample: three partners with raw allocations 1.00 each and
net income 1.00.  The true-up runs (|3 − 1| > 0.01, total ≠ 0), rescales by
1/3 and re-rounds each allocation to 0.33; the resulting sum is 0.99, which
does not round to 1.00 at penny precision. -/
theorem trueup_sum_after_rounding_fails :
    1/100 < |dictSum (partnerIds [sampleA, sampleB, sampleC])
        (rawAllocDict [sampleA, sampleB, sampleC] lpOne cbZero) - 1|
    ∧ dictSum (partnerIds [sampleA, sampleB, sampleC])
        (rawAllocDict [sampleA, sampleB, sampleC] lpOne cbZero) ≠ 0
    ∧ dictSum (partnerIds [sampleA, sampleB, sampleC])
        (calculate_target_allocations [sampleA, sampleB, sampleC] 1 lpOne cbZero) = 99/100
    ∧ quantizeCent (99/100) = 99/100
    ∧ ((99:ℚ)/100 ≠ 1) := by
  have htot : dictSum (partnerIds [sampleA, sampleB, sampleC])
      (rawAllocDict [sampleA, sampleB, sampleC] lpOne cbZero) = 3 := by
    rw [dictSum_eq _ _ ["A", "B", "C"] (by decide)]
    norm_num [rawAllocDict, rawAlloc, partnerIds, sampleA, sampleB, sampleC, lpOne, cbZero,
      quantizeCent, roundHalfUp]
  refine ⟨by rw [htot]; norm_num, by rw [htot]; norm_num, ?_,
    by norm_num [quantizeCent, roundHalfUp], by norm_num⟩
  rw [dictSum_eq _ _ ["A", "B", "C"] (by decide)]
  simp only [calculate_target_allocations, htot]
  norm_num [rawAllocDict, rawAlloc, partnerIds, sampleA, sampleB, sampleC, lpOne, cbZero,
    quantizeCent, roundHalfUp]

theorem findUnprotected_true (l : List (String × ℚ)) : findUnprotected true l = none := by
  induction l with
  | nil => rfl
  | cons x rest ih =>
    obtain ⟨pid, bal⟩ := x
    unfold findUnprotected
    simpa using ih

theorem findUnprotected_isSome_of_neg (l : List (String × ℚ)) (pid : String) (bal : ℚ)
    (hmem : (pid, bal) ∈ l) (hneg : bal < 0) :
    (findUnprotected false l).isSome = true := by
  induction l with
  | nil => cases hmem
  | cons x rest ih =>
    obtain ⟨q, b⟩ := x
    unfold findUnprotected
    by_cases hb : b < 0
    · simp [hb]
    · rcases List.mem_cons.mp hmem with heq | hmem'
      · exact absurd (by rw [← (Prod.mk.injEq q b pid bal).mp heq.symm |>.2] at hneg; exact hneg) hb
      · simp only [hb, false_and, if_neg, if_false]
        simpa using ih hmem'

/-- C6: both compliance validators return `deficit_restoration` equal to
`has_dro OR has_qio`; any partner with a negative (target/capital) balance
while both flags are false forces `substantial_economic_effect = false` and
is recorded in the warning log (the standalone validator logs the first
such partner, the manager logs each one); and with `has_dro = true` the
substantial-economic-effect flag stays true, all else equal. -/
theorem compliance_validation_rules (alloc : String → ℚ) (accounts : List (String × ℚ))
    (ag : Agreement) :
    ((validate_substantial_economic_effect alloc accounts ag).1.deficit_restoration
        = (ag.has_deficit_restoration_obligation || ag.has_qualified_income_offset)
      ∧ (validate_allocations_compliance alloc ag accounts).1.deficit_restoration
        = (ag.has_deficit_restoration_obligation || ag.has_qualified_income_offset))
    ∧ (∀ pid bal, (pid, bal) ∈ accounts → bal < 0 →
        ag.has_deficit_restoration_obligation = false →
        ag.has_qualified_income_offset = false →
        (validate_substantial_economic_effect alloc accounts ag).1.substantial_economic_effect
            = false
        ∧ (validate_substantial_economic_effect alloc accounts ag).2 ≠ []
        ∧ (validate_allocations_compliance alloc ag accounts).1.substantial_economic_effect
            = false
        ∧ pid ∈ (validate_allocations_compliance alloc ag accounts).2)
    ∧ (ag.has_deficit_restoration_obligation = true →
        (validate_substantial_economic_effect alloc accounts ag).1.substantial_economic_effect
            = true
        ∧ (validate_allocations_compliance alloc ag accounts).1.substantial_economic_effect
            = true) := by
  refine ⟨⟨by rw [validate_SEE_eq], rfl⟩, ?_, ?_⟩
  · intro pid bal hmem hneg hdro hqio
    have hsome : (findUnprotected false accounts).isSome = true :=
      findUnprotected_isSome_of_neg accounts pid bal hmem hneg
    have hfil : (pid, bal) ∈ accounts.filter
        (fun kv => decide (kv.2 < 0) && !ag.has_deficit_restoration_obligation
          && !ag.has_qualified_income_offset) :=
      List.mem_filter.mpr ⟨hmem, by simp [hneg, hdro, hqio]⟩
    refine ⟨?_, ?_, ?_, ?_⟩
    · rw [validate_SEE_eq]
      simp only [hdro, hqio, Bool.or_false]
      cases ho : findUnprotected false accounts
      · rw [ho] at hsome; simp at hsome
      · simp [ho]
    · rw [validate_SEE_eq]
      simp only [hdro, hqio, Bool.or_false]
      cases ho : findUnprotected false accounts
      · rw [ho] at hsome; simp at hsome
      · simp [ho]
    · show (accounts.filter _).isEmpty = false
      cases hl : accounts.filter
          (fun kv => decide (kv.2 < 0) && !ag.has_deficit_restoration_obligation
            && !ag.has_qualified_income_offset) with
      | nil => rw [hl] at hfil; cases hfil
      | cons y ys => rfl
    · exact List.mem_map.mpr ⟨(pid, bal), hfil, rfl⟩
  · intro hdro
    constructor
    · rw [validate_SEE_eq]
      simp [hdro, findUnprotected_true]
    · show (accounts.filter _).isEmpty = true
      have : accounts.filter
          (fun kv => decide (kv.2 < 0) && !ag.has_deficit_restoration_obligation
            && !ag.has_qualified_income_offset) = [] := by
        rw [List.filter_eq_nil_iff]
        intro a _
        simp [hdro]
      rw [this]
      rfl

theorem compliance_validation_rules_witness :
    (validate_substantial_economic_effect (fun _ => 0) [("A", -1/100)]
        ⟨false, false⟩).1.substantial_economic_effect = false
    ∧ (validate_allocations_compliance (fun _ => 0) ⟨false, false⟩
        [("A", -1/100)]).1.substantial_economic_effect = false
    ∧ (validate_substantial_economic_effect (fun _ => 0) [("A", -1/100)]
        ⟨true, false⟩).1.substantial_economic_effect = true
    ∧ (validate_allocations_compliance (fun _ => 0) ⟨true, false⟩
        [("A", -1/100)]).1.substantial_economic_effect = true := by
  have h1 := (compliance_validation_rules (fun _ => 0) [("A", -1/100)]
    ⟨false, false⟩).2.1 "A" (-1/100) (by simp) (by norm_num) rfl rfl
  have h2 := (compliance_validation_rules (fun _ => 0) [("A", -1/100)]
    ⟨true, false⟩).2.2 rfl
  exact ⟨h1.1, h1.2.2.1, h2.1, h2.2⟩

/-- C8 (amended): when total fair value is positive and the total
adjustment nonzero, each asset's recorded basis adjustment is the half-even
rounding of `total_adjustment × (fmv / total_fmv) × transferred_interest` —
the extra `transferred_interest` factor means the unrounded amounts sum to
`total_adjustment × transferred_interest`, not `total_adjustment` — and
when total fair value is not positive the `asset_adjustments` dict is left
empty (no division, no crash), rather than an all-zero entry per asset. -/
theorem sec754_allocation (assets : List Asset) (ti pp ib : ℚ)
    (hadj : pp - ib ≠ 0) :
    (0 < (assets.map (·.fair_market_value)).sum →
      ((calculate_section_754_adjustment assets ti pp ib).asset_adjustments.map
          (fun x => x.2.basis_adjustment)
        = assets.map (fun a => quantizeCentHE ((pp - ib)
            * (a.fair_market_value / (assets.map (·.fair_market_value)).sum) * ti)))
      ∧ (assets.map (fun a => (pp - ib)
            * (a.fair_market_value / (assets.map (·.fair_market_value)).sum) * ti)).sum
          = (pp - ib) * ti)
    ∧ ((assets.map (·.fair_market_value)).sum ≤ 0 →
        (calculate_section_754_adjustment assets ti pp ib).asset_adjustments = []) := by
  constructor
  · intro hpos
    constructor
    · simp only [calculate_section_754_adjustment, if_neg hadj, if_pos hpos]
      rw [List.map_map]
      rfl
    · have hT : (assets.map (·.fair_market_value)).sum ≠ 0 := ne_of_gt hpos
      have hfun : (fun a : Asset => (pp - ib)
            * (a.fair_market_value / (assets.map (·.fair_market_value)).sum) * ti)
          = fun a : Asset => ((pp - ib) * ti / (assets.map (·.fair_market_value)).sum)
              * a.fair_market_value := by
        funext a
        ring
      rw [hfun, list_sum_map_mul_left, div_mul_cancel₀ _ hT]
  · intro hnonpos
    simp only [calculate_section_754_adjustment, if_neg hadj,
      if_neg (not_lt.mpr hnonpos)]

theorem sec754_allocation_witness :
    ((calculate_section_754_adjustment [sampleAsset] (1/2) 100 0).asset_adjustments.map
        (fun x => x.2.basis_adjustment)
      = [sampleAsset].map (fun a => quantizeCentHE ((100 - 0)
          * (a.fair_market_value / ([sampleAsset].map (·.fair_market_value)).sum) * (1/2))))
    ∧ ([sampleAsset].map (fun a => (100 - 0 : ℚ)
        * (a.fair_market_value / ([sampleAsset].map (·.fair_market_value)).sum) * (1/2))).sum
      = (100 - 0) * (1/2) :=
  (sec754_allocation [sampleAsset] (1/2) 100 0 (by norm_num)).1 (by simp [sampleAsset])

/-- C8 counterexample: one asset holding the entire fair value, purchase
price 100, inside basis 0, transferred interest 1/2.  The claim predicts a
basis adjustment of `total_adjustment × share = 100 × 1 = 100`; the code
records 50, because it multiplies by `transferred_interest` as well. -/
theorem sec754_transferred_interest_factor :
    (calculate_section_754_adjustment [sampleAsset] (1/2) 100 0).asset_adjustments
      = [("A", ⟨50, 50⟩)]
    ∧ (100 - 0 : ℚ) * (sampleAsset.fair_market_value
        / ([sampleAsset].map (·.fair_market_value)).sum) = 100
    ∧ ((50 : ℚ) ≠ 100) := by
  refine ⟨?_, by norm_num [sampleAsset], by norm_num⟩
  norm_num [calculate_section_754_adjustment, sampleAsset, quantizeCentHE, roundHalfEven]

/-- C4 (amended): the `return_of_capital` step of
`calculate_liquidation_proceeds` distributes to each partner, in order,
exactly `max 0 (min (capital_contributed − cumulative amount already
distributed to that partner across ALL step categories, remaining))`,
stopping once `remaining ≤ 0` — the code keeps a single cumulative
per-partner total, not a per-step-category one, so a distribution received
in an earlier `preferred_return` step reduces the return-of-capital
distribution (see the counterexample). -/
theorem roc_cumulative_semantics : ∀ (l : List Partner) (f : String → ℚ) (rem : ℚ),
    rocStepCalc l f rem = rocStepSpec l f rem := by
  intro l
  induction l with
  | nil => intro f rem; rfl
  | cons p ps ih =>
    intro f rem
    unfold rocStepCalc rocStepSpec
    by_cases h1 : rem ≤ 0
    · simp [h1]
    · by_cases h2 : 0 < p.capital_contributed - f p.partner_id
      · have hd : max 0 (min (p.capital_contributed - f p.partner_id) rem)
            = min (p.capital_contributed - f p.partner_id) rem :=
          max_eq_right (le_min (le_of_lt h2) (le_of_lt (not_le.mp h1)))
        simp only [if_neg h1, if_pos h2, hd]
        exact ih _ _
      · have hd : max 0 (min (p.capital_contributed - f p.partner_id) rem) = 0 :=
          max_eq_left (le_trans (min_le_left _ _) (not_lt.mp h2))
        have hupd : update f p.partner_id 0 = f := by
          funext x
          simp [update]
        simp only [if_neg h1, if_neg h2, hd, hupd, sub_zero]
        exact ih _ _

/-- C4 counterexample: partner A with `capital_contributed = 100` and
`receives_preferred_return`, steps `[preferred_return(rate 1/2),
return_of_capital]`, proceeds 200.  The preferred step pays 50, leaving
150.  The claim's per-category formula predicts
`min(100 − 0, 150) = 100` from the return-of-capital step; the code pays
only `min(100 − 50, 150) = 50` because it subtracts the cumulative 50 from
the preferred step. -/
theorem roc_per_category_tracking_fails :
    (calcLiquidationState 200 [prefHalfStep, rocStep] [prefCap100]).1 "A"
      - (calcLiquidationState 200 [prefHalfStep] [prefCap100]).1 "A" = 50
    ∧ min (prefCap100.capital_contributed - 0)
        ((calcLiquidationState 200 [prefHalfStep] [prefCap100]).2) = 100
    ∧ ((50 : ℚ) ≠ 100) := by
  refine ⟨?_, ?_, by norm_num⟩
  · norm_num [calcLiquidationState, runCalc, stepCalc, rocStepCalc, prefStepCalc, update,
      prefCap100, prefHalfStep, rocStep]
  · norm_num [calcLiquidationState, runCalc, stepCalc, prefStepCalc, update,
      prefCap100, prefHalfStep]

theorem rocStepCalc_not_mem (l : List Partner) (f : String → ℚ) (rem : ℚ) (pid : String)
    (h : pid ∉ partnerIds l) : (rocStepCalc l f rem).1 pid = f pid := by
  induction l generalizing f rem with
  | nil => rfl
  | cons p ps ih =>
    have hne : pid ≠ p.partner_id := by
      intro he
      exact h (by simp [partnerIds, he])
    have hps : pid ∉ partnerIds ps := by
      intro hm
      apply h
      simp only [partnerIds, List.map_cons, List.mem_cons]
      exact Or.inr hm
    unfold rocStepCalc
    by_cases h1 : rem ≤ 0
    · simp [h1]
    · by_cases h2 : 0 < p.capital_contributed - f p.partner_id
      · simp only [if_neg h1, if_pos h2]
        rw [ih _ _ hps]
        exact update_ne f p.partner_id pid _ hne
      · simp only [if_neg h1, if_neg h2]
        exact ih _ _ hps

/-- C9 (amended): with the entry state of the `return_of_capital` step held
fixed (the per-partner cumulative totals `f` and the remaining pool `rem`),
increasing one partner's `capital_contributed` never decreases that
partner's cumulative total after the step.  The original claim — over the
whole waterfall — fails because raising `capital_contributed` also enlarges
an earlier `preferred_return` payout, which shrinks both the remaining pool
and the unreturned capital (see the counterexample). -/
theorem roc_monotone_in_capital (p1 p2 : Partner) (post : List Partner)
    (hid : p1.partner_id = p2.partner_id)
    (hcap : p1.capital_contributed ≤ p2.capital_contributed)
    (hpost : p1.partner_id ∉ partnerIds post) :
    ∀ (pre : List Partner) (f : String → ℚ) (rem : ℚ),
      p1.partner_id ∉ partnerIds pre →
      (rocStepCalc (pre ++ p1 :: post) f rem).1 p1.partner_id
        ≤ (rocStepCalc (pre ++ p2 :: post) f rem).1 p1.partner_id := by
  intro pre
  induction pre with
  | nil =>
    intro f rem _
    simp only [List.nil_append]
    unfold rocStepCalc
    by_cases h1 : rem ≤ 0
    · simp [h1]
    · have hrem : 0 < rem := not_le.mp h1
      have hf2 : f p2.partner_id = f p1.partner_id := by rw [hid]
      by_cases h2 : 0 < p1.capital_contributed - f p1.partner_id
      · have h2' : 0 < p2.capital_contributed - f p2.partner_id := by
          rw [hf2]
          exact lt_of_lt_of_le h2 (sub_le_sub_right hcap _)
        simp only [if_neg h1, if_pos h2, if_pos h2']
        rw [rocStepCalc_not_mem _ _ _ _ hpost, rocStepCalc_not_mem _ _ _ _ hpost]
        rw [show p1.partner_id = p2.partner_id from hid]
        rw [update_self, update_self, ← hid]
        exact add_le_add_left (min_le_min (sub_le_sub_right hcap _) (le_refl rem)) _
      · by_cases h2' : 0 < p2.capital_contributed - f p2.partner_id
        · simp only [if_neg h1, if_neg h2, if_pos h2']
          rw [rocStepCalc_not_mem _ _ _ _ hpost, rocStepCalc_not_mem _ _ _ _ hpost]
          rw [show p1.partner_id = p2.partner_id from hid, update_self]
          rw [hf2] at h2'
          have hd2 : 0 ≤ min (p2.capital_contributed - f p1.partner_id) rem :=
            le_of_lt (lt_min h2' hrem)
          rw [← hid]
          linarith
        · simp only [if_neg h1, if_neg h2, if_neg h2']
          rw [rocStepCalc_not_mem _ _ _ _ hpost]
  | cons q qs ih =>
    intro f rem hpre
    have hq : p1.partner_id ≠ q.partner_id := by
      intro he
      exact hpre (by simp [partnerIds, he])
    have hqs : p1.partner_id ∉ partnerIds qs := by
      intro hm
      apply hpre
      simp only [partnerIds, List.map_cons, List.mem_cons]
      exact Or.inr hm
    simp only [List.cons_append]
    unfold rocStepCalc
    by_cases h1 : rem ≤ 0
    · simp [h1]
    · by_cases h2 : 0 < q.capital_contributed - f q.partner_id
      · simp only [if_neg h1, if_pos h2]
        exact ih _ _ hqs
      · simp only [if_neg h1, if_neg h2]
        exact ih _ _ hqs

theorem roc_monotone_in_capital_witness :
    (rocStepCalc ([] ++ cap50 :: []) (fun _ => 0) 55).1 cap50.partner_id
      ≤ (rocStepCalc ([] ++ cap60 :: []) (fun _ => 0) 55).1 cap50.partner_id :=
  roc_monotone_in_capital cap50 cap60 [] rfl (by norm_num [cap50, cap60])
    (by simp [partnerIds]) [] (fun _ => 0) 55 (by simp [partnerIds])

/-- C9 counterexample: partner A with `receives_preferred_return`, steps
`[preferred_return(rate 1/2), return_of_capital]`, proceeds 100.  With
`capital_contributed = 100` the return-of-capital step pays 50; raising
`capital_contributed` to 120 (all else fixed) shrinks that step's payout to
40, because the larger preferred payout consumes more of the pool. -/
theorem roc_monotonicity_fails_with_prior_steps :
    (calcLiquidationState 100 [prefHalfStep, rocStep] [prefCap100]).1 "A"
      - (calcLiquidationState 100 [prefHalfStep] [prefCap100]).1 "A" = 50
    ∧ (calcLiquidationState 100 [prefHalfStep, rocStep] [prefCap120]).1 "A"
      - (calcLiquidationState 100 [prefHalfStep] [prefCap120]).1 "A" = 40
    ∧ prefCap100.capital_contributed ≤ prefCap120.capital_contributed
    ∧ ((40 : ℚ) < 50) := by
  refine ⟨?_, ?_, by norm_num [prefCap100, prefCap120], by norm_num⟩
  · norm_num [calcLiquidationState, runCalc, stepCalc, rocStepCalc, prefStepCalc, update,
      prefCap100, prefHalfStep, rocStep]
  · norm_num [calcLiquidationState, runCalc, stepCalc, rocStepCalc, prefStepCalc, update,
      prefCap120, prefHalfStep, rocStep]

end PartnershipTax
